import Mathlib

/-!
# Verification of the pylon bus-branch power system model

Shallow embedding of `pylon/case.py` and `pylon/routine/y.py` (admittance
matrix construction, linearized B matrices, second derivatives of injected
power and branch current, and the power-flow solution write-back), together
with theorems settling the specification claims about them.

Numbers: the Python code computes with floating point; the embedding uses
real and complex numbers (`ℝ`, `ℂ`), so the theorems describe the ideal
real-arithmetic behaviour of the algorithms.  Division by zero in Lean is
total (`x / 0 = 0`); places where the source can produce `inf`/`NaN` are
discussed at the corresponding claims.
-/

noncomputable section

open Matrix ComplexConjugate

/-! ## Data model (matrix-building view)

`Case.getYbus` reads, per bus, only the shunt conductance/susceptance and,
per branch, the electrical parameters plus the endpoint bus indices
`from_bus._i` / `to_bus._i` (plain numbers stored on the referenced bus
objects, snapshotted here as `from_i` / `to_i`). -/

/-- A busbar as seen by the matrix builders (`g_shunt`, `b_shunt` in
`Bus.__init__`). -/
structure BusR where
  g_shunt : ℝ
  b_shunt : ℝ

/-- A branch as seen by the matrix builders: in-service flag, series
resistance/reactance, total line charging susceptance, off-nominal tap
ratio, phase-shift angle in degrees, and the dense indices of its
endpoint buses (the values of `from_bus._i` and `to_bus._i`). -/
structure BranchR where
  from_i : ℕ
  to_i : ℕ
  online : Bool
  r : ℝ
  x : ℝ
  b : ℝ
  ratio : ℝ
  phase_shift : ℝ

/-! ## Admittance matrix (`Case.getYbus`, case.py lines 346-423) -/

/-- Series admittance `Ys = online / (r + 1j * x)` (case.py line 370). -/
def Ys (e : BranchR) : ℂ :=
  (if e.online then 1 else 0) / (e.r + Complex.I * e.x)

/-- Line charging susceptance `Bc = online * b` (case.py line 374). -/
def Bc (e : BranchR) : ℝ :=
  (if e.online then 1 else 0) * e.b

/-- Complex tap: magnitude defaults to `1`, overridden by a non-zero tap
ratio, times `exp(1j * shift)` with `shift = phase_shift * pi / 180`
(case.py lines 377-392). -/
def tap (e : BranchR) : ℂ :=
  (if e.ratio ≠ 0 then (e.ratio : ℂ) else 1) *
    Complex.exp (Complex.I * ((e.phase_shift * Real.pi / 180 : ℝ) : ℂ))

/-- `Ytt = Ys + 1j * Bc / 2` (case.py line 395). -/
def Ytt (e : BranchR) : ℂ := Ys e + Complex.I * (Bc e) / 2

/-- `Yff = Ytt / (tap * conj(tap))` (case.py line 396). -/
def Yff (e : BranchR) : ℂ := Ytt e / (tap e * conj (tap e))

/-- `Yft = -Ys / conj(tap)` (case.py line 397). -/
def Yft (e : BranchR) : ℂ := -Ys e / conj (tap e)

/-- `Ytf = -Ys / tap` (case.py line 398). -/
def Ytf (e : BranchR) : ℂ := -Ys e / tap e

/-- `Case.getYbus` (case.py lines 346-423): returns the triple
`(Ybus, Yf, Yt)`.  The sparse `csc_matrix((data, (rows, cols)))`
constructors sum duplicate coordinates, which the pointwise `if`-sums
below reproduce; entries whose bus index is out of range are dropped
(scipy would reject them, see the index-validity hypotheses of the
theorems). -/
def getYbus (base_mva : ℝ) {nb nl : ℕ} (buses : Fin nb → BusR)
    (branches : Fin nl → BranchR) :
    Matrix (Fin nb) (Fin nb) ℂ × Matrix (Fin nl) (Fin nb) ℂ ×
      Matrix (Fin nl) (Fin nb) ℂ :=
  let Ysh : Fin nb → ℂ := fun k =>
    ((buses k).g_shunt + Complex.I * (buses k).b_shunt) / base_mva
  let Cf : Matrix (Fin nl) (Fin nb) ℂ :=
    Matrix.of fun l j => if (branches l).from_i = (j : ℕ) then 1 else 0
  let Ct : Matrix (Fin nl) (Fin nb) ℂ :=
    Matrix.of fun l j => if (branches l).to_i = (j : ℕ) then 1 else 0
  let Yf : Matrix (Fin nl) (Fin nb) ℂ :=
    Matrix.of fun l j =>
      (if (branches l).from_i = (j : ℕ) then Yff (branches l) else 0) +
      (if (branches l).to_i = (j : ℕ) then Yft (branches l) else 0)
  let Yt : Matrix (Fin nl) (Fin nb) ℂ :=
    Matrix.of fun l j =>
      (if (branches l).from_i = (j : ℕ) then Ytf (branches l) else 0) +
      (if (branches l).to_i = (j : ℕ) then Ytt (branches l) else 0)
  (Cfᵀ * Yf + Ctᵀ * Yt + Matrix.diagonal Ysh, Yf, Yt)

/-- A branch with zero tap ratio and zero phase shift has complex tap `1`. -/
lemma tap_nominal (e : BranchR) (h1 : e.ratio = 0) (h2 : e.phase_shift = 0) :
    tap e = 1 := by
  simp [tap, h1, h2]

/-- C2: for a case with exactly two zero-shunt buses and one in-service
branch from bus 0 to bus 1 with resistance `r`, reactance `x`, zero
charging susceptance, zero tap ratio and zero phase shift, `getYbus`
returns the 2x2 bus admittance matrix `[[y, -y], [-y, y]]` with
`y = 1 / (r + jx)`. -/
theorem getYbus_single_branch (base r x : ℝ) :
    (getYbus base (fun _ : Fin 2 => BusR.mk 0 0)
        (fun _ : Fin 1 => BranchR.mk 0 1 true r x 0 0 0)).1 =
      Matrix.of
        ![![1 / (r + Complex.I * x), -(1 / (r + Complex.I * x))],
          ![-(1 / (r + Complex.I * x)), 1 / (r + Complex.I * x)]] := by
  have htap : tap (BranchR.mk 0 1 true r x 0 0 0) = 1 :=
    tap_nominal _ rfl rfl
  have hys : Ys (BranchR.mk 0 1 true r x 0 0 0) = 1 / (r + Complex.I * x) := by
    simp [Ys]
  ext i j
  fin_cases i <;> fin_cases j <;>
    simp [getYbus, Matrix.mul_apply, Fin.sum_univ_succ, Matrix.diagonal,
      Yff, Yft, Ytf, Ytt, Bc, htap, hys, div_eq_mul_inv]

/-- C1: for every bus and branch family, `getYbus` returns `(Ybus, Yf, Yt)`
where, for a branch `l` with distinct in-range endpoints, row `l` of `Yf`
holds `(Ys + j*Bc/2)/(tap*conj(tap))` in the from-bus column and
`-Ys/conj(tap)` in the to-bus column, row `l` of `Yt` holds `-Ys/tap` in
the from-bus column and `Ys + j*Bc/2` in the to-bus column — with
`Ys = online/(r+jx)`, `Bc = online*b` and the complex tap of magnitude 1
unless a non-zero tap ratio is set, times `exp(j*shift)` in radians — and
`Ybus = Cf^T*Yf + Ct^T*Yt + diag((g_shunt + j*b_shunt)/base_mva)` with
`Cf`/`Ct` the 0/1 branch-to-bus incidence matrices. -/
theorem getYbus_entries (base_mva : ℝ) {nb nl : ℕ} (buses : Fin nb → BusR)
    (branches : Fin nl → BranchR) (l : Fin nl)
    (hf : (branches l).from_i < nb) (ht : (branches l).to_i < nb)
    (hne : (branches l).from_i ≠ (branches l).to_i) :
    let e := branches l
    let ys : ℂ := (if e.online then 1 else 0) / (e.r + Complex.I * e.x)
    let bc : ℝ := (if e.online then 1 else 0) * e.b
    let tp : ℂ := (if e.ratio ≠ 0 then (e.ratio : ℂ) else 1) *
      Complex.exp (Complex.I * ((e.phase_shift * Real.pi / 180 : ℝ) : ℂ))
    (getYbus base_mva buses branches).2.1 l ⟨e.from_i, hf⟩ =
        (ys + Complex.I * bc / 2) / (tp * conj tp) ∧
    (getYbus base_mva buses branches).2.1 l ⟨e.to_i, ht⟩ = -ys / conj tp ∧
    (getYbus base_mva buses branches).2.2 l ⟨e.from_i, hf⟩ = -ys / tp ∧
    (getYbus base_mva buses branches).2.2 l ⟨e.to_i, ht⟩ =
        ys + Complex.I * bc / 2 ∧
    (getYbus base_mva buses branches).1 =
      (Matrix.of fun (l' : Fin nl) (j : Fin nb) =>
          if (branches l').from_i = (j : ℕ) then (1 : ℂ) else 0)ᵀ *
        (getYbus base_mva buses branches).2.1 +
      (Matrix.of fun (l' : Fin nl) (j : Fin nb) =>
          if (branches l').to_i = (j : ℕ) then (1 : ℂ) else 0)ᵀ *
        (getYbus base_mva buses branches).2.2 +
      Matrix.diagonal (fun k =>
        ((buses k).g_shunt + Complex.I * (buses k).b_shunt) / base_mva) := by
  refine ⟨?_, ?_, ?_, ?_, rfl⟩ <;>
    simp [getYbus, Yff, Yft, Ytf, Ytt, Ys, Bc, tap, hne, hne.symm]

/-- Witness for C1 at a concrete two-bus, one-branch input. -/
theorem getYbus_entries_witness :
    let e := BranchR.mk 0 1 true 1 1 0 0 0
    let branches : Fin 1 → BranchR := fun _ => e
    let buses : Fin 2 → BusR := fun _ => BusR.mk 0 0
    let ys : ℂ := (if e.online then 1 else 0) / (e.r + Complex.I * e.x)
    let bc : ℝ := (if e.online then 1 else 0) * e.b
    let tp : ℂ := (if e.ratio ≠ 0 then (e.ratio : ℂ) else 1) *
      Complex.exp (Complex.I * ((e.phase_shift * Real.pi / 180 : ℝ) : ℂ))
    (getYbus 100 buses branches).2.1 0 ⟨e.from_i, by decide⟩ =
        (ys + Complex.I * bc / 2) / (tp * conj tp) ∧
    (getYbus 100 buses branches).2.1 0 ⟨e.to_i, by decide⟩ = -ys / conj tp ∧
    (getYbus 100 buses branches).2.2 0 ⟨e.from_i, by decide⟩ = -ys / tp ∧
    (getYbus 100 buses branches).2.2 0 ⟨e.to_i, by decide⟩ =
        ys + Complex.I * bc / 2 ∧
    (getYbus 100 buses branches).1 =
      (Matrix.of fun (l' : Fin 1) (j : Fin 2) =>
          if (branches l').from_i = (j : ℕ) then (1 : ℂ) else 0)ᵀ *
        (getYbus 100 buses branches).2.1 +
      (Matrix.of fun (l' : Fin 1) (j : Fin 2) =>
          if (branches l').to_i = (j : ℕ) then (1 : ℂ) else 0)ᵀ *
        (getYbus 100 buses branches).2.2 +
      Matrix.diagonal (fun k =>
        ((buses k).g_shunt + Complex.I * (buses k).b_shunt) / 100) :=
  getYbus_entries 100 (fun _ => BusR.mk 0 0)
    (fun _ => BranchR.mk 0 1 true 1 1 0 0 0) 0
    (by decide) (by decide) (by decide)

/-- Summing a single scattered sparse value over all in-range columns
recovers the value. -/
lemma sum_if_eq_fin {n : ℕ} (c : ℕ) (h : c < n) (v : ℂ) :
    (∑ j : Fin n, if c = (j : ℕ) then v else 0) = v := by
  rw [Finset.sum_eq_single (⟨c, h⟩ : Fin n)]
  · simp
  · intro b _ hb
    rw [if_neg]
    intro hcb
    exact hb (Fin.ext hcb.symm)
  · intro hmem
    exact absurd (Finset.mem_univ _) hmem

/-- If every row of `M` sums to zero, so does every row of `Cᵀ * M`. -/
lemma row_sum_transpose_mul {nl nb : ℕ} (C M : Matrix (Fin nl) (Fin nb) ℂ)
    (h : ∀ l, ∑ j, M l j = 0) (k : Fin nb) : ∑ j, (Cᵀ * M) k j = 0 := by
  simp only [Matrix.mul_apply, Matrix.transpose_apply]
  rw [Finset.sum_comm]
  refine Finset.sum_eq_zero fun l _ => ?_
  rw [← Finset.mul_sum, h l, mul_zero]

/-- C3 (amended): in a network where every bus has zero shunt conductance
and susceptance, every branch has zero charging susceptance, zero tap
ratio (no off-nominal transformer) and zero phase shift, and every branch
endpoint index is in range, every row of the `Y_bus` matrix returned by
`getYbus` sums to zero. -/
theorem getYbus_row_sums_zero (base_mva : ℝ) {nb nl : ℕ}
    (buses : Fin nb → BusR) (branches : Fin nl → BranchR)
    (hsh : ∀ k, (buses k).g_shunt = 0 ∧ (buses k).b_shunt = 0)
    (hbr : ∀ l, (branches l).b = 0 ∧ (branches l).ratio = 0 ∧
      (branches l).phase_shift = 0)
    (hidx : ∀ l, (branches l).from_i < nb ∧ (branches l).to_i < nb)
    (k : Fin nb) :
    ∑ j, (getYbus base_mva buses branches).1 k j = 0 := by
  have hyf : ∀ l, Yff (branches l) + Yft (branches l) = 0 := fun l => by
    have htap := tap_nominal (branches l) (hbr l).2.1 (hbr l).2.2
    simp [Yff, Yft, Ytt, Bc, (hbr l).1, htap]
  have hyt : ∀ l, Ytf (branches l) + Ytt (branches l) = 0 := fun l => by
    have htap := tap_nominal (branches l) (hbr l).2.1 (hbr l).2.2
    simp [Ytf, Ytt, Bc, (hbr l).1, htap]
  have hrowf : ∀ l, ∑ j, (getYbus base_mva buses branches).2.1 l j = 0 := by
    intro l
    simp only [getYbus, Matrix.of_apply]
    rw [Finset.sum_add_distrib, sum_if_eq_fin _ (hidx l).1,
      sum_if_eq_fin _ (hidx l).2]
    exact hyf l
  have hrowt : ∀ l, ∑ j, (getYbus base_mva buses branches).2.2 l j = 0 := by
    intro l
    simp only [getYbus, Matrix.of_apply]
    rw [Finset.sum_add_distrib, sum_if_eq_fin _ (hidx l).1,
      sum_if_eq_fin _ (hidx l).2]
    exact hyt l
  have hsplit : (getYbus base_mva buses branches).1 =
      (Matrix.of fun (l : Fin nl) (j : Fin nb) =>
          if (branches l).from_i = (j : ℕ) then (1 : ℂ) else 0)ᵀ *
        (getYbus base_mva buses branches).2.1 +
      (Matrix.of fun (l : Fin nl) (j : Fin nb) =>
          if (branches l).to_i = (j : ℕ) then (1 : ℂ) else 0)ᵀ *
        (getYbus base_mva buses branches).2.2 +
      Matrix.diagonal (fun k' =>
        ((buses k').g_shunt + Complex.I * (buses k').b_shunt) / base_mva) :=
    rfl
  rw [hsplit]
  simp only [Matrix.add_apply, Finset.sum_add_distrib]
  rw [row_sum_transpose_mul _ _ hrowf k, row_sum_transpose_mul _ _ hrowt k]
  simp [Matrix.diagonal_apply, Finset.sum_ite_eq, (hsh k).1, (hsh k).2]

/-- Witness for the amended C3 at a concrete two-bus, one-branch input. -/
theorem getYbus_row_sums_zero_witness :
    let buses : Fin 2 → BusR := fun _ => BusR.mk 0 0
    let branches : Fin 1 → BranchR := fun _ => BranchR.mk 0 1 true 1 2 0 0 0
    (∀ k, (buses k).g_shunt = 0 ∧ (buses k).b_shunt = 0) ∧
    (∀ l, (branches l).b = 0 ∧ (branches l).ratio = 0 ∧
      (branches l).phase_shift = 0) ∧
    (∀ l, (branches l).from_i < 2 ∧ (branches l).to_i < 2) ∧
    ∀ k, ∑ j, (getYbus 100 buses branches).1 k j = 0 :=
  ⟨fun _ => ⟨rfl, rfl⟩, fun _ => ⟨rfl, rfl, rfl⟩, by decide,
    getYbus_row_sums_zero 100 _ _ (fun _ => ⟨rfl, rfl⟩)
      (fun _ => ⟨rfl, rfl, rfl⟩) (by decide)⟩

/-- C3 (counterexample): a network whose buses all have zero shunt
conductance and susceptance but whose single in-service branch carries a
non-zero charging susceptance (`b = 2`) has a `Y_bus` row that sums to
`j`, not zero — line charging leaks admittance to ground even with all
bus shunts zero. -/
theorem getYbus_row_sums_zero_cex :
    let buses : Fin 2 → BusR := fun _ => BusR.mk 0 0
    let branches : Fin 1 → BranchR := fun _ => BranchR.mk 0 1 true 1 0 2 0 0
    (∀ k, (buses k).g_shunt = 0 ∧ (buses k).b_shunt = 0) ∧
    (∑ j, (getYbus 100 buses branches).1 0 j = Complex.I) ∧
    Complex.I ≠ 0 := by
  refine ⟨fun _ => ⟨rfl, rfl⟩, ?_, Complex.I_ne_zero⟩
  have htap : tap (BranchR.mk 0 1 true 1 0 2 0 0) = 1 := tap_nominal _ rfl rfl
  simp [getYbus, Matrix.mul_apply, Fin.sum_univ_succ, Matrix.diagonal,
    Yff, Yft, Ytf, Ytt, Ys, Bc, htap]

/-! ## Fast-decoupled B matrices (`Case.makeB`, case.py lines 431-470)

The source deep-copies the bus/branch collections and zeroes fields on the
copies; value semantics make the copies plain record updates.  The branch
copies keep the endpoint index snapshots (`from_bus._i` / `to_bus._i`)
unchanged, exactly as `copy.deepcopy` preserves them. -/

/-- `Case.makeB` (case.py lines 431-470): builds B prime from the data
with bus shunt susceptance zeroed, branch charging zeroed, tap ratio
forced to 1 and (method "XB") resistance zeroed, and B double prime from
the data with bus shunt susceptance zeroed, phase shift zeroed and
(method "BX") resistance zeroed; returns the negated imaginary parts. -/
def makeB (base_mva : ℝ) {nb nl : ℕ} (buses : Fin nb → BusR)
    (branches : Fin nl → BranchR) (method : String) :
    Matrix (Fin nb) (Fin nb) ℝ × Matrix (Fin nb) (Fin nb) ℝ :=
  let B_buses : Fin nb → BusR := fun k => { buses k with b_shunt := 0 }
  let Bp_branches : Fin nl → BranchR := fun l =>
    let e := { branches l with b := 0, ratio := 1 }
    if method = "XB" then { e with r := 0 } else e
  let Yp := (getYbus base_mva B_buses Bp_branches).1
  let Bpp_branches : Fin nl → BranchR := fun l =>
    let e := { branches l with phase_shift := 0 }
    if method = "BX" then { e with r := 0 } else e
  let Ypp := (getYbus base_mva B_buses Bpp_branches).1
  (Matrix.of fun k j => -(Yp k j).im, Matrix.of fun k j => -(Ypp k j).im)

/-- C7: for every bus/branch family, `makeB` with method "XB" returns the
negated imaginary parts of the admittance matrices built from (bus shunt
susceptance zeroed; charging zeroed, tap forced to 1, resistance zeroed)
and (bus shunt susceptance zeroed; phase shift zeroed), while method "BX"
returns those built from (bus shunt susceptance zeroed; charging zeroed,
tap forced to 1) and (bus shunt susceptance zeroed; phase shift zeroed,
resistance zeroed). -/
theorem makeB_characterization (base_mva : ℝ) {nb nl : ℕ}
    (buses : Fin nb → BusR) (branches : Fin nl → BranchR) :
    makeB base_mva buses branches "XB" =
      (Matrix.of fun k j =>
        -(((getYbus base_mva (fun k' => { buses k' with b_shunt := 0 })
            (fun l => { branches l with b := 0, ratio := 1, r := 0 })).1)
              k j).im,
       Matrix.of fun k j =>
        -(((getYbus base_mva (fun k' => { buses k' with b_shunt := 0 })
            (fun l => { branches l with phase_shift := 0 })).1) k j).im) ∧
    makeB base_mva buses branches "BX" =
      (Matrix.of fun k j =>
        -(((getYbus base_mva (fun k' => { buses k' with b_shunt := 0 })
            (fun l => { branches l with b := 0, ratio := 1 })).1) k j).im,
       Matrix.of fun k j =>
        -(((getYbus base_mva (fun k' => { buses k' with b_shunt := 0 })
            (fun l => { branches l with phase_shift := 0, r := 0 })).1)
              k j).im) := by
  constructor <;>
    · unfold makeB
      simp only [eq_true (rfl : ("XB" : String) = "XB"),
        eq_true (rfl : ("BX" : String) = "BX"),
        eq_false (show ¬("XB" : String) = "BX" by decide),
        eq_false (show ¬("BX" : String) = "XB" by decide),
        if_true, if_false]

/-! ## DC power flow matrices (`Case.makeBdc`, case.py lines 476-540) -/

/-- Per-branch DC susceptance `b = online / x`, then divided by the tap
ratio when a non-zero ratio is set (case.py lines 506-517). -/
def bdc (e : BranchR) : ℝ :=
  ((if e.online then 1 else 0) / e.x) / (if e.ratio ≠ 0 then e.ratio else 1)

/-- `Case.makeBdc` (case.py lines 476-540): returns
`(Bbus, Bf, Pbusinj, Pfinj)` built from the signed branch-bus incidence
matrix `Cft`, with `Pfinj = b * shift` and `Pbusinj = Cft^T * Pfinj`. -/
def makeBdc {nb nl : ℕ} (buses : Fin nb → BusR)
    (branches : Fin nl → BranchR) :
    Matrix (Fin nb) (Fin nb) ℝ × Matrix (Fin nl) (Fin nb) ℝ ×
      (Fin nb → ℝ) × (Fin nl → ℝ) :=
  let Cft : Matrix (Fin nl) (Fin nb) ℝ :=
    Matrix.of fun l j =>
      (if (branches l).from_i = (j : ℕ) then 1 else 0) +
      (if (branches l).to_i = (j : ℕ) then -1 else 0)
  let Bf : Matrix (Fin nl) (Fin nb) ℝ :=
    Matrix.of fun l j =>
      (if (branches l).from_i = (j : ℕ) then bdc (branches l) else 0) +
      (if (branches l).to_i = (j : ℕ) then -bdc (branches l) else 0)
  let shift : Fin nl → ℝ := fun l => (branches l).phase_shift * Real.pi / 180
  let Pfinj : Fin nl → ℝ := fun l => bdc (branches l) * shift l
  (Cftᵀ * Bf, Bf, Cftᵀ.mulVec Pfinj, Pfinj)

/-- C8: in a network in which every branch has zero phase-shift angle,
`makeBdc` returns a `Pbusinj` equal to the zero vector. -/
theorem makeBdc_Pbusinj_zero {nb nl : ℕ} (buses : Fin nb → BusR)
    (branches : Fin nl → BranchR)
    (hshift : ∀ l, (branches l).phase_shift = 0) :
    (∀ l, (makeBdc buses branches).2.2.2 l = 0) ∧
    ∀ k, (makeBdc buses branches).2.2.1 k = 0 := by
  have hfinj : ∀ l, (makeBdc buses branches).2.2.2 l = 0 := by
    intro l
    simp only [makeBdc]
    rw [hshift l]
    ring
  refine ⟨hfinj, fun k => ?_⟩
  simp only [makeBdc, Matrix.mulVec, dotProduct, Matrix.transpose_apply,
    Matrix.of_apply]
  refine Finset.sum_eq_zero fun l _ => ?_
  rw [hshift l]
  ring

/-- Witness for C8 at a concrete two-bus, one-branch input. -/
theorem makeBdc_Pbusinj_zero_witness :
    let buses : Fin 2 → BusR := fun _ => BusR.mk 0 0
    let branches : Fin 1 → BranchR := fun _ => BranchR.mk 0 1 true 0 1 0 0 0
    (∀ l, (branches l).phase_shift = 0) ∧
    (∀ l, (makeBdc buses branches).2.2.2 l = 0) ∧
    ∀ k, (makeBdc buses branches).2.2.1 k = 0 :=
  ⟨fun _ => rfl,
    makeBdc_Pbusinj_zero (fun _ => BusR.mk 0 0)
      (fun _ => BranchR.mk 0 1 true 0 1 0 0 0) (fun _ => rfl)⟩

/-! ## Second derivatives (`Case.d2Sbus_dV2` and `Case.d2Ibr_dV2`,
case.py lines 695-745)

Sparse `csr_matrix((vec, (ib, ib)))` constructions are diagonal matrices;
`conj` on a sparse matrix is entrywise conjugation, `.H` the conjugate
transpose, `.T` the plain transpose. -/

/-- `Case.d2Sbus_dV2` (case.py lines 695-722): the quadruple
`(Gaa, Gav, Gva, Gvv)` of second derivatives of bus power injection with
respect to voltage angle/magnitude, weighted by the multipliers `lam`. -/
def d2Sbus_dV2 {n : ℕ} (Ybus : Matrix (Fin n) (Fin n) ℂ) (V : Fin n → ℂ)
    (lam : Fin n → ℝ) :
    Matrix (Fin n) (Fin n) ℂ × Matrix (Fin n) (Fin n) ℂ ×
      Matrix (Fin n) (Fin n) ℂ × Matrix (Fin n) (Fin n) ℂ :=
  let Ibus : Fin n → ℂ := Ybus.mulVec V
  let diaglam := Matrix.diagonal fun i => ((lam i : ℝ) : ℂ)
  let diagV := Matrix.diagonal V
  let A := Matrix.diagonal fun i => ((lam i : ℝ) : ℂ) * V i
  let B := Ybus * diagV
  let C := A * B.map conj
  let D := Ybusᴴ * diagV
  let E := (diagV.map conj) *
    (D * diaglam - Matrix.diagonal (D.mulVec fun i => ((lam i : ℝ) : ℂ)))
  let F := C - A * Matrix.diagonal fun i => conj (Ibus i)
  let G := Matrix.diagonal fun i => ((1 / Complex.abs (V i) : ℝ) : ℂ)
  let Gaa := E + F
  let Gva := Complex.I • (G * (E - F))
  let Gav := Gvaᵀ
  let Gvv := G * (C + Cᵀ) * G
  (Gaa, Gav, Gva, Gvv)

/-- C9: for every admittance matrix, every voltage vector with non-zero
magnitudes and every multiplier vector of the same length, the
angle-magnitude block of `d2Sbus_dV2` equals the transpose of the
magnitude-angle block. -/
theorem d2Sbus_dV2_symmetry {n : ℕ} (Ybus : Matrix (Fin n) (Fin n) ℂ)
    (V : Fin n → ℂ) (lam : Fin n → ℝ) (hV : ∀ i, V i ≠ 0) :
    (d2Sbus_dV2 Ybus V lam).2.1 = ((d2Sbus_dV2 Ybus V lam).2.2.1)ᵀ := rfl

/-- Witness for C9 at a concrete one-bus input. -/
theorem d2Sbus_dV2_symmetry_witness :
    (∀ i : Fin 1, (fun _ : Fin 1 => (1 : ℂ)) i ≠ 0) ∧
    (d2Sbus_dV2 (1 : Matrix (Fin 1) (Fin 1) ℂ) (fun _ => 1)
        (fun _ => 1)).2.1 =
      ((d2Sbus_dV2 (1 : Matrix (Fin 1) (Fin 1) ℂ) (fun _ => 1)
        (fun _ => 1)).2.2.1)ᵀ :=
  ⟨fun _ => one_ne_zero,
    d2Sbus_dV2_symmetry 1 (fun _ => 1) (fun _ => 1) fun _ => one_ne_zero⟩

/-- `Case.d2Ibr_dV2` (case.py lines 728-745): the quadruple
`(Haa, Hav, Hva, Hvv)` of second derivatives of complex branch current
with respect to voltage angle/magnitude, weighted by `lam`. -/
def d2Ibr_dV2 {nl nb : ℕ} (Ybr : Matrix (Fin nl) (Fin nb) ℂ)
    (V : Fin nb → ℂ) (lam : Fin nl → ℂ) :
    Matrix (Fin nb) (Fin nb) ℂ × Matrix (Fin nb) (Fin nb) ℂ ×
      Matrix (Fin nb) (Fin nb) ℂ × Matrix (Fin nb) (Fin nb) ℂ :=
  let diaginvVm := Matrix.diagonal fun i => ((1 / Complex.abs (V i) : ℝ) : ℂ)
  let Haa := Matrix.diagonal fun i => -(Ybrᵀ.mulVec lam) i / V i
  let Hva := (-Complex.I) • (Haa * diaginvVm)
  let Hav := Hva
  let Hvv : Matrix (Fin nb) (Fin nb) ℂ := 0
  (Haa, Hav, Hva, Hvv)

/-- C10: for every branch admittance matrix, voltage vector with non-zero
entries and multiplier vector, `d2Ibr_dV2` returns a zero
magnitude-magnitude block, and angle-magnitude and magnitude-angle blocks
that are equal to each other, diagonal, and equal to `-j` times the
angle-angle block scaled by `1/|V|`. -/
theorem d2Ibr_dV2_blocks {nl nb : ℕ} (Ybr : Matrix (Fin nl) (Fin nb) ℂ)
    (V : Fin nb → ℂ) (lam : Fin nl → ℂ) (hV : ∀ i, V i ≠ 0) :
    (d2Ibr_dV2 Ybr V lam).2.2.2 = 0 ∧
    (d2Ibr_dV2 Ybr V lam).2.1 = (d2Ibr_dV2 Ybr V lam).2.2.1 ∧
    ((d2Ibr_dV2 Ybr V lam).2.1).IsDiag ∧
    ((d2Ibr_dV2 Ybr V lam).2.2.1).IsDiag ∧
    (d2Ibr_dV2 Ybr V lam).2.1 =
      (-Complex.I) • ((d2Ibr_dV2 Ybr V lam).1 *
        Matrix.diagonal fun i => ((1 / Complex.abs (V i) : ℝ) : ℂ)) := by
  have hdiag : ((d2Ibr_dV2 Ybr V lam).2.1).IsDiag := by
    simp only [d2Ibr_dV2, Matrix.diagonal_mul_diagonal]
    exact (Matrix.isDiag_diagonal _).smul _
  exact ⟨rfl, rfl, hdiag, hdiag, rfl⟩

/-- Witness for C10 at a concrete one-branch, one-bus input. -/
theorem d2Ibr_dV2_blocks_witness :
    (∀ i : Fin 1, (fun _ : Fin 1 => (1 : ℂ)) i ≠ 0) ∧
    ((d2Ibr_dV2 (1 : Matrix (Fin 1) (Fin 1) ℂ) (fun _ => 1)
        (fun _ => 1)).2.2.2 = 0 ∧
      (d2Ibr_dV2 (1 : Matrix (Fin 1) (Fin 1) ℂ) (fun _ => 1)
          (fun _ => 1)).2.1 =
        (d2Ibr_dV2 (1 : Matrix (Fin 1) (Fin 1) ℂ) (fun _ => 1)
          (fun _ => 1)).2.2.1 ∧
      ((d2Ibr_dV2 (1 : Matrix (Fin 1) (Fin 1) ℂ) (fun _ => 1)
          (fun _ => 1)).2.1).IsDiag ∧
      ((d2Ibr_dV2 (1 : Matrix (Fin 1) (Fin 1) ℂ) (fun _ => 1)
          (fun _ => 1)).2.2.1).IsDiag ∧
      (d2Ibr_dV2 (1 : Matrix (Fin 1) (Fin 1) ℂ) (fun _ => 1)
          (fun _ => 1)).2.1 =
        (-Complex.I) • ((d2Ibr_dV2 (1 : Matrix (Fin 1) (Fin 1) ℂ)
            (fun _ => 1) (fun _ => 1)).1 *
          Matrix.diagonal fun _ => ((1 / Complex.abs 1 : ℝ) : ℂ))) :=
  ⟨fun _ => one_ne_zero,
    d2Ibr_dV2_blocks 1 (fun _ => 1) (fun _ => 1) fun _ => one_ne_zero⟩

/-! ## Solution write-back view (`Bus`, `Branch`, `Generator`, `Case`)

Full entity records for `Case.reset` / `Case.pf_solution`.  Object
references (a branch's or generator's bus) become positions in the case's
bus list, which `copy`-free Python mutation keeps stable; the
solver-assigned index `_i` is the `idx` field. -/

/-- Bus type constants (case.py lines 39-42). -/
inductive BusType
  | PQ
  | PV
  | REFERENCE
  | ISOLATED
  deriving DecidableEq

/-- A busbar with its state fields (`Bus.__init__`, case.py lines 60-112).
`idx` is the solver-managed dense index `_i`. -/
structure PBus where
  type : BusType
  v_magnitude : ℝ
  v_angle : ℝ
  p_demand : ℝ
  q_demand : ℝ
  g_shunt : ℝ
  b_shunt : ℝ
  p_lmbda : ℝ
  q_lmbda : ℝ
  mu_vmin : ℝ
  mu_vmax : ℝ
  idx : ℕ

/-- A branch with its result fields (`Branch.__init__`, case.py lines
132-193).  `from_bus`/`to_bus` are positions in the case's bus list. -/
structure PBranch where
  from_bus : ℕ
  to_bus : ℕ
  online : Bool
  r : ℝ
  x : ℝ
  b : ℝ
  ratio : ℝ
  phase_shift : ℝ
  p_from : ℝ
  p_to : ℝ
  q_from : ℝ
  q_to : ℝ
  mu_s_from : ℝ
  mu_s_to : ℝ
  mu_angmin : ℝ
  mu_angmax : ℝ
  idx : ℕ

/-- Modelled from the spec: the Generator class is not under `src/` (only
its callers in `case.py` are).  Per spec section 3 a generator carries
active/reactive dispatch, online and load-vs-generation flags and a bus
reference; per sections 3/4.4 its solver-derived state is the constraint
multipliers. -/
structure PGen where
  bus : ℕ
  online : Bool
  is_load : Bool
  p : ℝ
  q : ℝ
  mu_pmin : ℝ
  mu_pmax : ℝ
  mu_qmin : ℝ
  mu_qmax : ℝ

/-- A case: base power and the entity lists (`Case.__init__`, case.py
lines 219-234). -/
structure PCase where
  base_mva : ℝ
  buses : List PBus
  branches : List PBranch
  generators : List PGen

/-- Default bus used for out-of-range list reads. -/
def dPBus : PBus := ⟨BusType.PQ, 0, 0, 0, 0, 0, 0, 0, 0, 0, 0, 0⟩

/-- Default branch used for out-of-range list reads. -/
def dPBranch : PBranch := ⟨0, 0, false, 0, 0, 0, 0, 0, 0, 0, 0, 0, 0, 0, 0, 0, 0⟩

/-- Default generator used for out-of-range list reads. -/
def dPGen : PGen := ⟨0, false, false, 0, 0, 0, 0, 0, 0⟩

/-- `Bus.reset` (case.py lines 115-121): zeroes the lambdas and the
voltage-limit multipliers (and nothing else). -/
def busReset (b : PBus) : PBus :=
  { b with p_lmbda := 0, q_lmbda := 0, mu_vmin := 0, mu_vmax := 0 }

/-- `Branch.reset` (case.py lines 196-208): zeroes the end flows and the
constraint multipliers. -/
def branchReset (e : PBranch) : PBranch :=
  { e with
      p_from := 0, p_to := 0, q_from := 0, q_to := 0,
      mu_s_from := 0, mu_s_to := 0, mu_angmin := 0, mu_angmax := 0 }

/-- Modelled from the spec: `Generator.reset` (class not under `src/`)
zeroes the solver-derived constraint multipliers, leaving dispatch and
topology attributes alone. -/
def genReset (g : PGen) : PGen :=
  { g with mu_pmin := 0, mu_pmax := 0, mu_qmin := 0, mu_qmax := 0 }

/-- `Case.reset` (case.py lines 911-919): resets every bus, branch and
generator. -/
def PCase.reset (c : PCase) : PCase :=
  { c with
      buses := c.buses.map busReset,
      branches := c.branches.map branchReset,
      generators := c.generators.map genReset }

/-- `Case.connected_buses` (case.py lines 240-253): all non-isolated
buses. -/
def PCase.connected_buses (c : PCase) : List PBus :=
  c.buses.filter fun b => b.type ≠ BusType.ISOLATED

/-- Number of connected buses strictly before position `k` in the bus
list: the dense index `index_buses` assigns to a connected bus there. -/
def connCountBefore (bs : List PBus) (k : ℕ) : ℕ :=
  ((bs.take k).filter fun b => b.type ≠ BusType.ISOLATED).length

/-- `Case.index_buses` (case.py lines 289-297) at `start = 0`: each
connected bus receives its position among the connected buses as `_i`. -/
def PCase.index_buses (c : PCase) : PCase :=
  { c with buses := c.buses.enum.map fun p =>
      if p.2.type = BusType.ISOLATED then p.2
      else { p.2 with idx := connCountBefore c.buses p.1 } }

/-- Number of online branches strictly before position `k`. -/
def onlineCountBefore (ls : List PBranch) (k : ℕ) : ℕ :=
  ((ls.take k).filter fun e => e.online).length

/-- `Case.index_branches` (case.py lines 300-308) at `start = 0`: each
in-service branch receives its position among the in-service branches. -/
def PCase.index_branches (c : PCase) : PCase :=
  { c with branches := c.branches.enum.map fun p =>
      if p.2.online then { p.2 with idx := onlineCountBefore c.branches p.1 }
      else p.2 }

/-- Number of online generators strictly before position `k`: the
enumeration index of an online generator inside `online_generators`. -/
def onlineGenCountBefore (gs : List PGen) (k : ℕ) : ℕ :=
  ((gs.take k).filter fun g => g.online).length

/-- `Case.pf_solution` (case.py lines 837-905): resets the case,
re-indexes buses and branches, writes bus voltage angle (degrees) and
magnitude from `V`, sets every online generator's reactive dispatch from
the total injected bus power `Sg = V * conj(Ybus*V)` at its bus index,
sets the active dispatch of reference-bus generators from `Sg` at the
generator's position in the online generator list (the source indexes
`Sg.real` with the enumeration index `i`, not with `g.bus._i`), and
writes the branch end flows from `Yf`/`Yt`. -/
def PCase.pf_solution (c : PCase) (Ybus Yf Yt : ℕ → ℕ → ℂ) (V : List ℂ) :
    PCase :=
  let c2 := (c.reset).index_buses.index_branches
  let buses2 := c2.buses.map fun b =>
    if b.type = BusType.ISOLATED then b
    else { b with
             v_angle := Complex.arg (V.getD b.idx 0) * 180 / Real.pi,
             v_magnitude := Complex.abs (V.getD b.idx 0) }
  let busAt : ℕ → PBus := fun k => buses2.getD k dPBus
  let Sg : ℕ → ℂ := fun i =>
    V.getD i 0 * conj (∑ j ∈ Finset.range V.length, Ybus i j * V.getD j 0)
  let gens2 := c2.generators.enum.map fun p =>
    let g := p.2
    if g.online then
      let g1 := { g with
                    q := (Sg (busAt g.bus).idx).im * c.base_mva +
                      (busAt g.bus).q_demand }
      if (busAt g.bus).type = BusType.REFERENCE then
        { g1 with
            p := (Sg (onlineGenCountBefore c2.generators p.1)).re *
              c.base_mva + (busAt g.bus).p_demand }
      else g1
    else g
  let brs2 := c2.branches.map fun l =>
    if l.online then
      let Sf := V.getD (busAt l.from_bus).idx 0 *
        conj (∑ j ∈ Finset.range V.length, Yf l.idx j * V.getD j 0) *
          c.base_mva
      let St := V.getD (busAt l.to_bus).idx 0 *
        conj (∑ j ∈ Finset.range V.length, Yt l.idx j * V.getD j 0) *
          c.base_mva
      { l with p_from := Sf.re, q_from := Sf.im, p_to := St.re, q_to := St.im }
    else l
  { c with buses := buses2, branches := brs2, generators := gens2 }



/-- `getD` of a mapped list, when the map fixes the default. -/
lemma getD_map {α : Type} (f : α → α) (d : α) (hd : f d = d) (l : List α)
    (i : ℕ) : (l.map f).getD i d = f (l.getD i d) := by
  induction l generalizing i with
  | nil => simpa using hd.symm
  | cons a t ih =>
    cases i with
    | zero => rfl
    | succ n => simpa using ih n

/-- C5 (amended): `Case.reset()` returns every bus lambda and
voltage-limit multiplier, every branch end flow and branch constraint
multiplier and every generator constraint multiplier to zero, and leaves
everything else — in particular the bus voltage magnitude and angle, the
electrical parameters and the list lengths — unchanged. -/
theorem case_reset_fields (c : PCase) (i : ℕ) :
    ((c.reset).buses.length = c.buses.length ∧
     (c.reset).branches.length = c.branches.length ∧
     (c.reset).generators.length = c.generators.length) ∧
    (let b := (c.reset).buses.getD i dPBus
     let b0 := c.buses.getD i dPBus
     b.p_lmbda = 0 ∧ b.q_lmbda = 0 ∧ b.mu_vmin = 0 ∧ b.mu_vmax = 0 ∧
     b.type = b0.type ∧ b.v_magnitude = b0.v_magnitude ∧
     b.v_angle = b0.v_angle ∧ b.p_demand = b0.p_demand ∧
     b.q_demand = b0.q_demand ∧ b.g_shunt = b0.g_shunt ∧
     b.b_shunt = b0.b_shunt ∧ b.idx = b0.idx) ∧
    (let e := (c.reset).branches.getD i dPBranch
     let e0 := c.branches.getD i dPBranch
     e.p_from = 0 ∧ e.p_to = 0 ∧ e.q_from = 0 ∧ e.q_to = 0 ∧
     e.mu_s_from = 0 ∧ e.mu_s_to = 0 ∧ e.mu_angmin = 0 ∧ e.mu_angmax = 0 ∧
     e.from_bus = e0.from_bus ∧ e.to_bus = e0.to_bus ∧ e.online = e0.online ∧
     e.r = e0.r ∧ e.x = e0.x ∧ e.b = e0.b ∧ e.ratio = e0.ratio ∧
     e.phase_shift = e0.phase_shift ∧ e.idx = e0.idx) ∧
    (let g := (c.reset).generators.getD i dPGen
     let g0 := c.generators.getD i dPGen
     g.mu_pmin = 0 ∧ g.mu_pmax = 0 ∧ g.mu_qmin = 0 ∧ g.mu_qmax = 0 ∧
     g.bus = g0.bus ∧ g.online = g0.online ∧ g.is_load = g0.is_load ∧
     g.p = g0.p ∧ g.q = g0.q) := by
  have hb : (c.reset).buses.getD i dPBus = busReset (c.buses.getD i dPBus) :=
    getD_map busReset dPBus rfl c.buses i
  have he : (c.reset).branches.getD i dPBranch =
      branchReset (c.branches.getD i dPBranch) :=
    getD_map branchReset dPBranch rfl c.branches i
  have hg : (c.reset).generators.getD i dPGen =
      genReset (c.generators.getD i dPGen) :=
    getD_map genReset dPGen rfl c.generators i
  refine ⟨⟨by simp [PCase.reset], by simp [PCase.reset], by simp [PCase.reset]⟩,
    ?_, ?_, ?_⟩
  · rw [hb]
    exact ⟨rfl, rfl, rfl, rfl, rfl, rfl, rfl, rfl, rfl, rfl, rfl, rfl⟩
  · rw [he]
    exact ⟨rfl, rfl, rfl, rfl, rfl, rfl, rfl, rfl, rfl, rfl, rfl, rfl, rfl,
      rfl, rfl, rfl, rfl⟩
  · rw [hg]
    exact ⟨rfl, rfl, rfl, rfl, rfl, rfl, rfl, rfl, rfl⟩

/-- C5 (counterexample): on a one-bus case, `pf_solution` with `V = [2]`
followed by `reset()` leaves the bus's voltage magnitude at `2` — `reset`
does not return the solver-written voltage magnitude (or angle) to zero,
because `Bus.reset` only clears the lambdas and voltage-limit
multipliers. -/
theorem case_reset_voltage_cex :
    let c : PCase :=
      ⟨100, [⟨BusType.REFERENCE, 1, 0, 0, 0, 0, 0, 0, 0, 0, 0, 0⟩], [], []⟩
    let out := (c.pf_solution (fun _ _ => 1) (fun _ _ => 1) (fun _ _ => 1)
      [2]).reset
    (out.buses.getD 0 dPBus).v_magnitude = 2 ∧ (2 : ℝ) ≠ 0 := by
  refine ⟨?_, by norm_num⟩
  simp [PCase.pf_solution, PCase.reset, PCase.index_buses,
    PCase.index_branches, busReset, branchReset, genReset, connCountBefore,
    List.enum, List.enumFrom, dPBus, Complex.abs_two]

/-- C6: evaluation of `pf_solution` at a case whose only reference-bus
generator sits at position 1 of the online generator list while its bus
has dense index 0.  The source sets the generator's active dispatch from
`Sg.real` at the *enumeration index* `i = 1` (case.py line 886), giving
`400`, whereas the total injected power at the generator's bus (index 0,
the quantity named by the claim and used for the reactive update on line
873) gives `100`. -/
theorem pf_solution_refgen_p_bug :
    let c : PCase :=
      ⟨100, [⟨BusType.REFERENCE, 1, 0, 0, 0, 0, 0, 0, 0, 0, 0, 0⟩,
             ⟨BusType.PQ, 1, 0, 0, 0, 0, 0, 0, 0, 0, 0, 0⟩], [],
        [⟨1, true, false, 0, 0, 0, 0, 0, 0⟩,
         ⟨0, true, false, 0, 0, 0, 0, 0, 0⟩]⟩
    let Y : ℕ → ℕ → ℂ := fun i j => if i = j then 1 else 0
    let V : List ℂ := [1, 2]
    let out := c.pf_solution Y Y Y V
    let g := out.generators.getD 1 dPGen
    (out.buses.getD g.bus dPBus).idx = 0 ∧
    (out.buses.getD g.bus dPBus).type = BusType.REFERENCE ∧
    g.p = 400 ∧
    (V.getD 0 0 * conj (∑ j ∈ Finset.range V.length, Y 0 j * V.getD j 0)).re
        * c.base_mva + (out.buses.getD g.bus dPBus).p_demand = 100 ∧
    (400 : ℝ) ≠ 100 := by
  refine ⟨?_, ?_, ?_, ?_, by norm_num⟩ <;>
    norm_num [PCase.pf_solution, PCase.reset, PCase.index_buses,
      PCase.index_branches, busReset, branchReset, genReset,
      connCountBefore, onlineCountBefore, onlineGenCountBefore,
      List.enum, List.enumFrom, dPBus, dPGen, Finset.sum_range_succ]

/-! ## Loop-based admittance builders (`pylon/routine/y.py`)

`make_admittance_matrix` (y.py lines 101-138) and
`PSATAdmittanceMatrix.build` (y.py lines 332-384) accumulate per-branch
contributions into an initially-zero sparse matrix; `src`/`dst` are the
positions of the endpoint buses in the non-islanded bus list, and the
branch lists contain only in-service branches. -/

/-- A branch as seen by the y.py builders. -/
structure YBranch where
  src : ℕ
  dst : ℕ
  r : ℝ
  x : ℝ
  b : ℝ
  ratio : ℝ
  phase_shift : ℝ

/-- `y = 1/complex(r, x)`, except that a `ZeroDivisionError` (i.e.
`r = 0` and `x = 0`) is caught and replaced by the ad hoc real constant
`1e10` (y.py lines 115-121). -/
def yClamped (e : YBranch) : ℂ :=
  if e.r = 0 ∧ e.x = 0 then ((10 : ℝ) ^ 10 : ℝ)
  else 1 / (e.r + e.x * Complex.I)

/-- `make_admittance_matrix` (y.py lines 101-138): per-branch admittance
`y` (clamped to `1e10` on zero impedance) and charging `chrg = j*b/2`
accumulated as `-y` off-diagonal and `y + chrg` on the two diagonal
entries. -/
def make_admittance_matrix (n : ℕ) (branches : List YBranch) :
    Matrix (Fin n) (Fin n) ℂ :=
  Matrix.of fun k j =>
    (branches.map fun e =>
      let y := yClamped e
      let chrg := Complex.I * e.b / 2
      (if e.src = (k : ℕ) ∧ e.dst = (j : ℕ) then -y else 0) +
      (if e.dst = (k : ℕ) ∧ e.src = (j : ℕ) then -y else 0) +
      (if e.src = (k : ℕ) ∧ e.src = (j : ℕ) then y + chrg else 0) +
      (if e.dst = (k : ℕ) ∧ e.dst = (j : ℕ) then y + chrg else 0)).sum

/-- `z = 1/complex(r, x)`, except that a `ZeroDivisionError` is caught and
replaced by the different ad hoc constant `complex(0, 1e09)`
(y.py lines 363-366). -/
def zClampedPSAT (e : YBranch) : ℂ :=
  if e.r = 0 ∧ e.x = 0 then Complex.I * ((10 : ℝ) ^ 9 : ℝ)
  else 1 / (e.r + e.x * Complex.I)

/-- `PSATAdmittanceMatrix.build` (y.py lines 332-384): per-branch series
admittance `z` (clamped to `1e9j` on zero impedance), charging
`charge = j*b/2` and complex tap `ts = ratio * exp(j*shift)`, accumulated
as `-z*ts` / `-z*conj(ts)` off-diagonal and `z + charge` /
`z*ts*conj(ts) + charge` on the diagonal. -/
def psat_admittance (n : ℕ) (branches : List YBranch) :
    Matrix (Fin n) (Fin n) ℂ :=
  Matrix.of fun k j =>
    (branches.map fun e =>
      let z := zClampedPSAT e
      let charge := Complex.I * e.b / 2
      let ts := (e.ratio : ℂ) *
        Complex.exp (Complex.I * ((e.phase_shift * Real.pi / 180 : ℝ) : ℂ))
      (if e.src = (k : ℕ) ∧ e.dst = (j : ℕ) then -z * ts else 0) +
      (if e.dst = (k : ℕ) ∧ e.src = (j : ℕ) then -z * conj ts else 0) +
      (if e.src = (k : ℕ) ∧ e.src = (j : ℕ) then z + charge else 0) +
      (if e.dst = (k : ℕ) ∧ e.dst = (j : ℕ) then z * (ts * conj ts) + charge
        else 0)).sum

/-- C4: evaluation of the admittance builders on an in-service branch
with zero series impedance (`r = 0`, `x = 0`).  `make_admittance_matrix`
silently clamps the branch admittance to the ad hoc constant `1e10`,
`PSATAdmittanceMatrix.build` to the different constant `1e9j`, and the
two disagree — there is no single documented policy, and `Case.getYbus`
itself (case.py line 370) divides with no guard at all, letting the
resulting `inf`/`NaN` float entries propagate. -/
theorem zero_impedance_clamp_mismatch :
    let zb : YBranch := ⟨0, 1, 0, 0, 0, 0, 0⟩
    make_admittance_matrix 2 [zb] 0 0 = ((10 : ℝ) ^ 10 : ℝ) ∧
    psat_admittance 2 [zb] 0 0 = Complex.I * ((10 : ℝ) ^ 9 : ℝ) ∧
    (((10 : ℝ) ^ 10 : ℝ) : ℂ) ≠ Complex.I * ((10 : ℝ) ^ 9 : ℝ) := by
  refine ⟨?_, ?_, ?_⟩
  · simp [make_admittance_matrix, yClamped]
  · simp [psat_admittance, zClampedPSAT]
  · intro h
    have him := congrArg Complex.im h
    simp at him
    norm_num at him
